import Mathlib

/-!
Shallow embedding of the GraphDB-Neo4j student onboarding and recommendation
service. Nodes live in a list (the Neo4j node store), similarity edges in a
list of Edge records, and the students.json mirror is a list of records.
All definitions are translated from the Python source
(fastapi/services/student_service.py, fastapi/services/create_relationships.py,
fastapi/models/student.py); Cypher queries are embedded by their semantics
on the store (null properties are Option.none, Cypher IS NOT NULL is isSome,
Cypher equality on a non-null left side agrees with Option equality).
-/

/-- A Student node as stored in Neo4j. Properties set to null in Cypher are
absent, hence Option for the four optional scalar attributes; a null
interests property behaves like an empty list everywhere it is read. -/
structure Student where
  id : Nat
  name : String
  address : Option String
  college : Option String
  board : Option String
  stream : Option String
  interests : List String
deriving DecidableEq, Repr

/-- Request body of the onboarding endpoint (models/student.py StudentCreate):
every field is required. -/
structure StudentCreate where
  name : String
  address : String
  college : String
  board : String
  stream : String
  interests : List String
deriving DecidableEq, Repr

/-- One entry of the recommendation result (models/student.py StudentResponse). -/
structure StudentResponse where
  id : Nat
  name : String
  address : Option String
  matched_on : List String
  matching_interests : Option (List String)
  same_address : Bool
deriving DecidableEq, Repr

/-- The five relationship kinds created by create_relationships.py. -/
inductive RelKind
  | SAME_COLLEGE
  | SAME_BOARD
  | SAME_STREAM
  | NEARBY
  | SHARES_INTEREST
deriving DecidableEq, Repr

/-- A stored relationship. src and tgt are student ids; common is the
r.common property, only ever set on SHARES_INTEREST edges and empty
otherwise. -/
structure Edge where
  src : Nat
  tgt : Nat
  kind : RelKind
  common : List String
deriving DecidableEq, Repr

/-- The persistent state touched by the service: the Neo4j node store, the
Neo4j edge store, and the students.json mirror file. -/
structure ServiceState where
  store : List Student
  edges : List Edge
  mirror : List Student
deriving DecidableEq, Repr

/-- Point lookup MATCH (s:Student {id: $id}): first node with the id. -/
def lookup (store : List Student) (i : Nat) : Option Student :=
  store.find? (fun s => s.id == i)

/-- Existence check used by the sync loop (MATCH returning s.id, single()). -/
def containsId (store : List Student) (i : Nat) : Bool :=
  store.any (fun s => s.id == i)

/-- MATCH (s:Student) RETURN MAX(s.id), with null coalesced to 0
(record max_id or 0 in save_student). -/
def maxId (store : List Student) : Nat :=
  store.foldl (fun m s => max m s.id) 0

/-- The node CREATEd by save_student from a StudentCreate: every scalar
attribute is a concrete string, hence some. -/
def mkStudent (i : Nat) (c : StudentCreate) : Student :=
  ⟨i, c.name, some c.address, some c.college, some c.board, some c.stream, c.interests⟩

/-- The json record written by _save_to_json for a new id (same shape as the
node: the dict holds id, name, address, college, board, stream, interests). -/
def replaceFirstById (mirror : List Student) (s : Student) : List Student :=
  match mirror with
  | [] => [s]
  | r :: rs => if r.id = s.id then s :: rs else r :: replaceFirstById rs s

/-- _save_to_json: replace the first record carrying the id, else append. -/
def save_to_json (mirror : List Student) (s : Student) : List Student :=
  replaceFirstById mirror s

/-- save_student: allocate max+1, CREATE the node, write the json mirror,
return the id. The edge store is not touched by this code path. -/
def save_student (c : StudentCreate) (st : ServiceState) : Nat × ServiceState :=
  let nid := maxId st.store + 1
  let s := mkStudent nid c
  (nid, ⟨st.store ++ [s], st.edges, save_to_json st.mirror s⟩)

/-- _sync_json_to_neo4j: for each mirror record in file order, CREATE the
node only when no node with that id exists at that moment. -/
def sync_json_to_neo4j (mirror store : List Student) : List Student :=
  mirror.foldl (fun st r => if containsId st r.id then st else st ++ [r]) store

/-- Interests of the other student that occur in the current student
interest list (the list comprehension in recommend_people). -/
def matchingInterests (cur other : Student) : List String :=
  other.interests.filter (fun i => cur.interests.contains i)

/-- The matched_fields list built by recommend_people, in source order:
board, stream, college, address, then interests when the common list is
nonempty. Comparison is literal Python equality on the record values, so
two absent attributes (None) compare equal. -/
def matchedFields (cur other : Student) : List String :=
  (if other.board = cur.board then ["board"] else []) ++
  (if other.stream = cur.stream then ["stream"] else []) ++
  (if other.college = cur.college then ["college"] else []) ++
  (if other.address = cur.address then ["address"] else []) ++
  (if (matchingInterests cur other).isEmpty then [] else ["interests"])

/-- The response built for one candidate record, or none when no field
matched (the OR-logic guard). matching_interests is None for an empty list
(Python truthiness) and same_address is set exactly in the address branch. -/
def respFor (cur other : Student) : Option StudentResponse :=
  let mf := matchedFields cur other
  if mf.isEmpty then none
  else some ⟨other.id, other.name, other.address, mf,
    (let mi := matchingInterests cur other
     if mi.isEmpty then none else some mi),
    other.address == cur.address⟩

/-- MATCH (s:Student) WHERE s.id <> $student_id, in store order. -/
def othersOf (store : List Student) (sid : Nat) : List Student :=
  store.filter (fun s => s.id != sid)

/-- The candidate loop of recommend_people for a resolved current student. -/
def recommendCore (store : List Student) (sid : Nat) (cur : Student) : List StudentResponse :=
  (othersOf store sid).filterMap (respFor cur)

/-- recommend_people: resolve the subject; when absent run the json sync and
retry once; when still absent return no recommendations. The first component
is the node store after the call (the sync can insert nodes). -/
def recommend_people (mirror store : List Student) (sid : Nat) :
    List Student × List StudentResponse :=
  match lookup store sid with
  | some cur => (store, recommendCore store sid cur)
  | none =>
    let store2 := sync_json_to_neo4j mirror store
    match lookup store2 sid with
    | some cur => (store2, recommendCore store2 sid cur)
    | none => (store2, [])

/-- The score of the specification: one point per matching scalar dimension
plus the size of the interest overlap, evaluated with the comparison the
code actually performs. -/
def scoreOf (cur other : Student) : Nat :=
  (if other.board = cur.board then 1 else 0) +
  (if other.stream = cur.stream then 1 else 0) +
  (if other.college = cur.college then 1 else 0) +
  (if other.address = cur.address then 1 else 0) +
  (matchingInterests cur other).length

/-- Pattern check for a MERGE on a specific (source, target, kind) triple:
MERGE matches on the relationship pattern, never on properties. -/
def isKey (s t : Nat) (k : RelKind) (e : Edge) : Bool :=
  e.src == s && e.tgt == t && e.kind == k

/-- Whether the edge store already holds an edge of the given triple. -/
def containsKey (es : List Edge) (s t : Nat) (k : RelKind) : Bool :=
  es.any (isKey s t k)

/-- MERGE (a)-[:K]->(b): create the edge only when the pattern has no match. -/
def mergeEdge (es : List Edge) (s t : Nat) (k : RelKind) : List Edge :=
  if containsKey es s t k then es else es ++ [⟨s, t, k, []⟩]

/-- Effect of SET r.common on one stored edge: only edges matched by the
MERGE pattern receive the new list. -/
def setCommon (c : List String) (s t : Nat) (e : Edge) : Edge :=
  if isKey s t RelKind.SHARES_INTEREST e then ⟨e.src, e.tgt, e.kind, c⟩ else e

/-- MERGE (a)-[r:SHARES_INTEREST]->(b) SET r.common = c: create the edge
carrying c when absent, otherwise overwrite common on the matched edge. -/
def mergeInterestEdge (es : List Edge) (s t : Nat) (c : List String) : List Edge :=
  if containsKey es s t RelKind.SHARES_INTEREST then es.map (setCommon c s t)
  else es ++ [⟨s, t, RelKind.SHARES_INTEREST, c⟩]

/-- Pairs produced by MATCH (a:Student), (b:Student) WHERE a.id < b.id AND
a.attr IS NOT NULL AND a.attr = b.attr, enumerated in store order. On a
non-null left side Cypher equality agrees with Option equality. -/
def scalarPairs (attr : Student → Option String) (store : List Student) :
    List (Student × Student) :=
  store.flatMap (fun a =>
    (store.filter (fun b =>
      decide (a.id < b.id) && (attr a).isSome && (attr a == attr b))).map
      (fun b => (a, b)))

/-- create_same_college: one MERGE per matching pair. -/
def create_same_college (store : List Student) (es : List Edge) : List Edge :=
  (scalarPairs Student.college store).foldl
    (fun es2 p => mergeEdge es2 p.1.id p.2.id RelKind.SAME_COLLEGE) es

/-- create_same_board. -/
def create_same_board (store : List Student) (es : List Edge) : List Edge :=
  (scalarPairs Student.board store).foldl
    (fun es2 p => mergeEdge es2 p.1.id p.2.id RelKind.SAME_BOARD) es

/-- create_same_stream. -/
def create_same_stream (store : List Student) (es : List Edge) : List Edge :=
  (scalarPairs Student.stream store).foldl
    (fun es2 p => mergeEdge es2 p.1.id p.2.id RelKind.SAME_STREAM) es

/-- create_nearby (address equality). -/
def create_nearby (store : List Student) (es : List Edge) : List Edge :=
  (scalarPairs Student.address store).foldl
    (fun es2 p => mergeEdge es2 p.1.id p.2.id RelKind.NEARBY) es

/-- The list x IN a.interests WHERE x IN b.interests of the Cypher query:
values of a, in order, that also appear in b. -/
def commonInterests (a b : Student) : List String :=
  a.interests.filter (fun x => b.interests.contains x)

/-- Pairs of MATCH (a),(b) WHERE a.id < b.id AND any(x IN a.interests WHERE
x IN b.interests). -/
def interestPairs (store : List Student) : List (Student × Student) :=
  store.flatMap (fun a =>
    (store.filter (fun b =>
      decide (a.id < b.id) && a.interests.any (fun x => b.interests.contains x))).map
      (fun b => (a, b)))

/-- create_shares_interest: MERGE plus SET r.common per matching pair. -/
def create_shares_interest (store : List Student) (es : List Edge) : List Edge :=
  (interestPairs store).foldl
    (fun es2 p => mergeInterestEdge es2 p.1.id p.2.id (commonInterests p.1 p.2)) es

/-- run_all of create_relationships.py: the five backfill passes in source
order (college, board, stream, address, interest), each guarded by its flag. -/
def run_all (store : List Student) (cBoard cCollege cStream cAddress cInterest : Bool)
    (es : List Edge) : List Edge :=
  let es1 := if cCollege then create_same_college store es else es
  let es2 := if cBoard then create_same_board store es1 else es1
  let es3 := if cStream then create_same_stream store es2 else es2
  let es4 := if cAddress then create_nearby store es3 else es3
  if cInterest then create_shares_interest store es4 else es4

/-- materializeAll of the specification is run_all with every flag on. -/
def materializeAll (store : List Student) (es : List Edge) : List Edge :=
  run_all store true true true true true es

/-- Number of mirror records carrying a given id. -/
def countById (mirror : List Student) (i : Nat) : Nat :=
  (mirror.filter (fun r => r.id == i)).length

/-- Scenario student A of the testable-properties section: only board and
interests set. -/
def c1A : Student := ⟨1, "A", none, none, some "Nepal Board", none, ["math", "chess"]⟩

/-- Scenario student B: board with different casing and a trailing space,
interests with different casing. -/
def c1B : Student := ⟨2, "B", none, none, some "nepal board ", none, ["Math", "art"]⟩

/-- Node store of the scenario of claim C1. -/
def c1Store : List Student := [c1A, c1B]

/-- Subject for the ranking scenario: all attributes set. -/
def c2Subject : Student := ⟨1, "s", some "a", some "c", some "b", some "s1", ["p", "q"]⟩

/-- Candidate matching the subject on board only. -/
def c2CandX : Student := ⟨2, "x", some "ax", some "cx", some "b", some "zx", ["r"]⟩

/-- Candidate matching the subject on board, stream and college. -/
def c2CandY : Student := ⟨3, "y", some "ay", some "c", some "b", some "s1", []⟩

/-- Node store of the ranking scenario: the low-score candidate precedes the
high-score candidate in store order. -/
def c2Store : List Student := [c2Subject, c2CandX, c2CandY]

/-- Subject with no college value set; every other scalar attribute differs
from the candidate. -/
def c4Subject : Student := ⟨1, "u", some "a1", none, some "b1", some "s1", ["x"]⟩

/-- Candidate with no college value set. -/
def c4Cand : Student := ⟨2, "v", some "a2", none, some "b2", some "s2", ["y"]⟩

/-- Node store of the empty-college scenario. -/
def c4Store : List Student := [c4Subject, c4Cand]

/-- Student whose college is the empty string. -/
def emptyCollegeA : Student := ⟨1, "e1", some "p1", some "", some "q1", some "r1", []⟩

/-- Second student whose college is the empty string. -/
def emptyCollegeB : Student := ⟨2, "e2", some "p2", some "", some "q2", some "r2", []⟩

/-- Node store holding id 5 with college X. -/
def c8Store : List Student := [⟨5, "m", none, some "X", none, none, []⟩]

/-- Mirror holding a conflicting record for id 5 (college Y) and a fresh
record for id 6. -/
def c8Mirror : List Student :=
  [⟨5, "m", none, some "Y", none, none, []⟩, ⟨6, "n", none, some "Z", none, none, []⟩]

/-- Node store holding only id 1. -/
def c9Store : List Student := [⟨1, "w", some "aw", some "cw", some "bw", some "sw", ["k"]⟩]

/-- Mirror holding a record whose id is absent from c9Store. -/
def c9Mirror : List Student := [⟨7, "z", some "az", some "cz", some "bz", some "sz", ["k"]⟩]

/-- Service state before the onboarding counterexample: one student, no
edges, empty mirror. -/
def c3State : ServiceState :=
  ⟨[⟨1, "p", some "addr1", some "Pulchowk", some "NEB", some "Science", ["ml"]⟩], [], []⟩

/-- Onboarding request sharing every attribute with the stored student. -/
def c3Create : StudentCreate := ⟨"q", "addr1", "Pulchowk", "NEB", "Science", ["ml"]⟩

/-! ### Lemmas about the mirror-to-store sync -/

theorem sync_cons (r : Student) (m st : List Student) :
    sync_json_to_neo4j (r :: m) st =
      sync_json_to_neo4j m (if containsId st r.id then st else st ++ [r]) := by
  by_cases h : containsId st r.id <;> simp [sync_json_to_neo4j, h]

theorem sync_nil (st : List Student) : sync_json_to_neo4j [] st = st := rfl

theorem containsId_append_left {st : List Student} {i : Nat} (l : List Student)
    (h : containsId st i = true) : containsId (st ++ l) i = true := by
  simp only [containsId, List.any_append] at h ⊢
  simp [h]

theorem lookup_append_of_isSome {st : List Student} {i : Nat} (l : List Student)
    (h : (lookup st i).isSome) : lookup (st ++ l) i = lookup st i := by
  simp only [lookup, List.find?_append]
  cases hf : List.find? (fun s => s.id == i) st with
  | none => rw [lookup, hf] at h; simp at h
  | some v => rfl

theorem sync_suffix (m : List Student) : ∀ st : List Student,
    ∃ ext, sync_json_to_neo4j m st = st ++ ext := by
  induction m with
  | nil => exact fun st => ⟨[], by simp [sync_nil]⟩
  | cons r m ih =>
    intro st
    rw [sync_cons]
    by_cases h : containsId st r.id
    · simpa [h] using ih st
    · obtain ⟨ext, he⟩ := ih (st ++ [r])
      refine ⟨r :: ext, ?_⟩
      rw [if_neg h, he, List.append_assoc]
      rfl

theorem lookup_sync_of_isSome {st : List Student} {i : Nat} (m : List Student)
    (h : (lookup st i).isSome) :
    lookup (sync_json_to_neo4j m st) i = lookup st i := by
  obtain ⟨ext, he⟩ := sync_suffix m st
  rw [he]
  exact lookup_append_of_isSome ext h

theorem containsId_sync {st : List Student} {i : Nat} (m : List Student)
    (h : containsId st i = true) :
    containsId (sync_json_to_neo4j m st) i = true := by
  obtain ⟨ext, he⟩ := sync_suffix m st
  rw [he]
  exact containsId_append_left ext h

theorem mem_sync {s : Student} (m : List Student) : ∀ st : List Student,
    s ∈ sync_json_to_neo4j m st → s ∈ st ∨ (s ∈ m ∧ containsId st s.id = false) := by
  induction m with
  | nil => intro st h; rw [sync_nil] at h; exact Or.inl h
  | cons r m ih =>
    intro st h
    rw [sync_cons] at h
    by_cases hc : containsId st r.id
    · rw [if_pos hc] at h
      rcases ih st h with h1 | ⟨h2, h3⟩
      · exact Or.inl h1
      · exact Or.inr ⟨List.mem_cons_of_mem r h2, h3⟩
    · rw [if_neg hc] at h
      rcases ih (st ++ [r]) h with h1 | ⟨h2, h3⟩
      · rcases List.mem_append.mp h1 with h1a | h1b
        · exact Or.inl h1a
        · have hsr : s = r := by simpa using h1b
          subst hsr
          exact Or.inr ⟨List.mem_cons_self s m, by simpa using hc⟩
      · have h3' : containsId st s.id = false := by
          simp only [containsId, List.any_append] at h3
          rcases Bool.or_eq_false_iff.mp h3 with ⟨ha, _⟩
          exact ha
        exact Or.inr ⟨List.mem_cons_of_mem r h2, h3'⟩

theorem lookup_eq_none_iff {st : List Student} {i : Nat} :
    lookup st i = none ↔ containsId st i = false := by
  simp [lookup, containsId, List.find?_eq_none, List.any_eq_false]

theorem sync_noop {m st : List Student}
    (h : ∀ r ∈ m, containsId st r.id = true) : sync_json_to_neo4j m st = st := by
  induction m with
  | nil => exact sync_nil st
  | cons r m ih =>
    rw [sync_cons, if_pos (h r (List.mem_cons_self r m))]
    exact ih (fun q hq => h q (List.mem_cons_of_mem r hq))

theorem sync_all_present (m : List Student) : ∀ st : List Student,
    ∀ r ∈ m, containsId (sync_json_to_neo4j m st) r.id = true := by
  induction m with
  | nil => intro st r hr; cases hr
  | cons q m ih =>
    intro st r hr
    rw [sync_cons]
    rcases List.mem_cons.mp hr with hrq | hrm
    · subst hrq
      by_cases hc : containsId st r.id
      · rw [if_pos hc]; exact containsId_sync m hc
      · rw [if_neg hc]
        refine containsId_sync m ?_
        simp [containsId, List.any_append]
    · exact ih _ r hrm

theorem sync_idem (m st : List Student) :
    sync_json_to_neo4j m (sync_json_to_neo4j m st) = sync_json_to_neo4j m st :=
  sync_noop (sync_all_present m st)

/-- C8: reconciliation never overwrites an existing node (lookups of ids
already present are unchanged, so the stored college of id 5 survives a
conflicting mirror record), only records whose id is absent from the store
are inserted, and a repeated run inserts nothing further. -/
theorem sync_non_destructive (mirror store : List Student) :
    (∀ i, (lookup store i).isSome →
        lookup (sync_json_to_neo4j mirror store) i = lookup store i) ∧
    (∀ s, s ∈ sync_json_to_neo4j mirror store →
        s ∈ store ∨ (s ∈ mirror ∧ lookup store s.id = none)) ∧
    sync_json_to_neo4j mirror (sync_json_to_neo4j mirror store) =
      sync_json_to_neo4j mirror store := by
  refine ⟨fun i hi => lookup_sync_of_isSome mirror hi, fun s hs => ?_, sync_idem mirror store⟩
  rcases mem_sync mirror store hs with h1 | ⟨h2, h3⟩
  · exact Or.inl h1
  · exact Or.inr ⟨h2, lookup_eq_none_iff.mpr h3⟩

/-- Witness for C8 at the concrete conflict scenario: id 5 keeps college X
although the mirror says Y, and a second reconciliation changes nothing. -/
theorem sync_non_destructive_witness :
    lookup (sync_json_to_neo4j c8Mirror c8Store) 5 = lookup c8Store 5 ∧
    sync_json_to_neo4j c8Mirror (sync_json_to_neo4j c8Mirror c8Store) =
      sync_json_to_neo4j c8Mirror c8Store :=
  ⟨(sync_non_destructive c8Mirror c8Store).1 5 (by decide),
   (sync_non_destructive c8Mirror c8Store).2.2⟩

/-! ### Lemmas about recommend_people -/

theorem recommend_found {mirror store : List Student} {sid : Nat} {cur : Student}
    (h : lookup store sid = some cur) :
    recommend_people mirror store sid = (store, recommendCore store sid cur) := by
  unfold recommend_people
  rw [h]

theorem recommend_store_cases (mirror store : List Student) (sid : Nat) :
    (recommend_people mirror store sid).1 = store ∨
    (recommend_people mirror store sid).1 = sync_json_to_neo4j mirror store := by
  unfold recommend_people
  cases h : lookup store sid with
  | some cur => exact Or.inl rfl
  | none =>
    refine Or.inr ?_
    cases h2 : lookup (sync_json_to_neo4j mirror store) sid with
    | some cur => simp only [h2]
    | none => simp only [h2]

/-- C9 amended: recommend leaves the store untouched whenever the subject id
resolves; when it does not, the triggered sync can only append mirror
records, never remove a node and never change what an existing id resolves
to. -/
theorem recommend_readonly_bound (mirror store : List Student) (sid : Nat) :
    ((lookup store sid).isSome → (recommend_people mirror store sid).1 = store) ∧
    (∀ s, s ∈ store → s ∈ (recommend_people mirror store sid).1) ∧
    (∀ i, (lookup store i).isSome →
        lookup (recommend_people mirror store sid).1 i = lookup store i) := by
  refine ⟨fun hs => ?_, fun s hs => ?_, fun i hi => ?_⟩
  · obtain ⟨cur, hcur⟩ := Option.isSome_iff_exists.mp hs
    rw [recommend_found hcur]
  · rcases recommend_store_cases mirror store sid with h | h
    · rw [h]; exact hs
    · rw [h]
      obtain ⟨ext, he⟩ := sync_suffix mirror store
      rw [he]
      exact List.mem_append_left ext hs
  · rcases recommend_store_cases mirror store sid with h | h
    · rw [h]
    · rw [h]
      exact lookup_sync_of_isSome mirror hi

/-- C9 counterexample: recommending an unknown id with a nonempty mirror
mutates the node store (the sync inserts the mirror-only record). -/
theorem recommend_mutates_on_sync_cex :
    (recommend_people c9Mirror c9Store 2).1 ≠ c9Store := by decide

/-- Witness for C9 amended at a concrete found id: the store is returned
unchanged. -/
theorem recommend_readonly_bound_witness :
    (recommend_people c9Mirror c9Store 1).1 = c9Store :=
  (recommend_readonly_bound c9Mirror c9Store 1).1 (by decide)

/-- C1 counterexample: on the scenario node set, the matched fields of the
single returned candidate are not board and interests. -/
theorem recommend_scenario_not_normalized_cex :
    (recommend_people [] c1Store 1).2.map (fun r => r.matched_on) ≠
      [["board", "interests"]] := by decide

/-- C1 amended: because the service compares values literally, recommend(1)
for the scenario returns B matched on the three attributes that are absent
on both sides (absent compares equal to absent), with no board match, no
matching interests, and same_address true. -/
theorem recommend_scenario_literal :
    recommend_people [] c1Store 1 =
      (c1Store, [⟨2, "B", none, ["stream", "college", "address"], none, true⟩]) := by
  decide

theorem respFor_id {cur o : Student} {r : StudentResponse}
    (h : respFor cur o = some r) : r.id = o.id := by
  unfold respFor at h
  by_cases he : (matchedFields cur o).isEmpty
  · simp [he] at h
  · rw [if_neg he] at h
    injection h with h
    rw [← h]

theorem resp_ids_sublist (cur : Student) (os : List Student) :
    List.Sublist ((os.filterMap (respFor cur)).map (fun r => r.id))
      (os.map (fun s => s.id)) := by
  induction os with
  | nil => simp
  | cons o os ih =>
    cases h : respFor cur o with
    | none =>
      rw [List.filterMap_cons, h, List.map_cons]
      exact ih.cons o.id
    | some r =>
      rw [List.filterMap_cons, h, List.map_cons, List.map_cons, respFor_id h]
      exact ih.cons₂ o.id

theorem recommend_repeat (mirror store : List Student) (sid : Nat) :
    (recommend_people mirror (recommend_people mirror store sid).1 sid).2 =
      (recommend_people mirror store sid).2 := by
  unfold recommend_people
  cases h : lookup store sid with
  | some cur => simp only [h]
  | none =>
    simp only []
    cases h2 : lookup (sync_json_to_neo4j mirror store) sid with
    | some cur => simp only [h2]
    | none => simp only [h2, sync_idem]

/-- C2 counterexample: on the concrete store the two returned candidates
come out in store order with scores 1 then 3, so the result is not ordered
descending by score. -/
theorem recommend_not_score_sorted_cex :
    ((recommend_people [] c2Store 1).2.map
        (fun r => scoreOf c2Subject ((lookup c2Store r.id).getD c2Subject))) = [1, 3] ∧
    ¬ List.Chain' (fun a b : Nat => b ≤ a)
        ((recommend_people [] c2Store 1).2.map
          (fun r => scoreOf c2Subject ((lookup c2Store r.id).getD c2Subject))) := by
  refine ⟨by decide, ?_⟩
  intro h
  have h13 : List.Chain' (fun a b : Nat => b ≤ a) [1, 3] := by
    have he : ((recommend_people [] c2Store 1).2.map
        (fun r => scoreOf c2Subject ((lookup c2Store r.id).getD c2Subject))) = [1, 3] := by
      decide
    rw [he] at h
    exact h
  have := List.chain'_cons.mp h13
  omega

/-- C2 amended: recommend returns candidates in node-store order (the ids of
the result form a sublist of the ids of the store scan with the subject
removed), it does not sort by score, and an immediately repeated call on the
resulting state returns the identical result list. -/
theorem recommend_order_deterministic_store_order (mirror store : List Student) (sid : Nat) :
    (recommend_people mirror (recommend_people mirror store sid).1 sid).2 =
      (recommend_people mirror store sid).2 ∧
    (∀ cur, lookup store sid = some cur →
      List.Sublist ((recommend_people mirror store sid).2.map (fun r => r.id))
        ((othersOf store sid).map (fun s => s.id))) := by
  refine ⟨recommend_repeat mirror store sid, fun cur h => ?_⟩
  rw [recommend_found h]
  exact resp_ids_sublist cur (othersOf store sid)

/-- Witness for C2 amended at the concrete ranking store. -/
theorem recommend_order_deterministic_store_order_witness :
    List.Sublist ((recommend_people [] c2Store 1).2.map (fun r => r.id))
      ((othersOf c2Store 1).map (fun s => s.id)) :=
  (recommend_order_deterministic_store_order [] c2Store 1).2 c2Subject (by decide)

theorem respFor_isSome_iff (cur o : Student) :
    (respFor cur o).isSome ↔ 0 < scoreOf cur o := by
  unfold respFor scoreOf matchedFields
  by_cases h1 : o.board = cur.board <;>
  by_cases h2 : o.stream = cur.stream <;>
  by_cases h3 : o.college = cur.college <;>
  by_cases h4 : o.address = cur.address <;>
  cases hmi : matchingInterests cur o <;>
  simp [h1, h2, h3, h4, hmi]

/-- C5: with the subject resolved, the result consists exactly of the other
students whose response is produced, a response is produced for a candidate
iff its score is strictly positive, and a candidate matching on board alone
yields a response whose matched_on is exactly the board tag. -/
theorem recommend_or_inclusion (mirror store : List Student) (sid : Nat) (cur : Student)
    (h : lookup store sid = some cur) :
    (∀ r, r ∈ (recommend_people mirror store sid).2 ↔
        ∃ o, o ∈ othersOf store sid ∧ respFor cur o = some r) ∧
    (∀ o : Student, (respFor cur o).isSome ↔ 0 < scoreOf cur o) ∧
    (∀ o : Student, o.board = cur.board → o.stream ≠ cur.stream →
        o.college ≠ cur.college → o.address ≠ cur.address →
        matchingInterests cur o = [] →
        respFor cur o = some ⟨o.id, o.name, o.address, ["board"], none, false⟩) := by
  refine ⟨fun r => ?_, fun o => respFor_isSome_iff cur o, fun o h1 h2 h3 h4 h5 => ?_⟩
  · rw [recommend_found h]
    exact List.mem_filterMap
  · unfold respFor matchedFields
    simp [h1, h2, h3, h4, h5]

/-- Witness for C5: the board-only candidate of the concrete ranking store
is returned with matched_on consisting of the board tag alone. -/
theorem recommend_or_inclusion_witness :
    respFor c2Subject c2CandX = some ⟨2, "x", some "ax", ["board"], none, false⟩ :=
  (recommend_or_inclusion [] c2Store 1 c2Subject (by decide)).2.2 c2CandX
    (by decide) (by decide) (by decide) (by decide) (by decide)

/-! ### Lemmas about identity allocation and the mirror write -/

theorem le_foldl_max (l : List Student) : ∀ init : Nat,
    init ≤ l.foldl (fun m s => max m s.id) init := by
  induction l with
  | nil => intro init; exact Nat.le_refl _
  | cons a l ih =>
    intro init
    exact Nat.le_trans (Nat.le_max_left init a.id) (ih (max init a.id))

theorem id_le_foldl_max {l : List Student} {s : Student} (hs : s ∈ l) :
    ∀ init : Nat, s.id ≤ l.foldl (fun m t => max m t.id) init := by
  induction l with
  | nil => cases hs
  | cons a l ih =>
    intro init
    rcases List.mem_cons.mp hs with h | h
    · subst h
      exact Nat.le_trans (Nat.le_max_right init s.id) (le_foldl_max l (max init s.id))
    · exact ih h (max init a.id)

theorem id_le_maxId {store : List Student} {s : Student} (hs : s ∈ store) :
    s.id ≤ maxId store :=
  id_le_foldl_max hs 0

theorem lookup_append_fresh {st : List Student} {r : Student}
    (h : ∀ s ∈ st, s.id ≠ r.id) : lookup (st ++ [r]) r.id = some r := by
  induction st with
  | nil => simp [lookup]
  | cons a st ih =>
    have ha : (a.id == r.id) = false :=
      beq_eq_false_iff_ne.mpr (h a (List.mem_cons_self a st))
    rw [List.cons_append]
    unfold lookup
    rw [List.find?_cons_of_neg _ (by simp [ha])]
    exact ih (fun s hs => h s (List.mem_cons_of_mem a hs))

/-- C3 counterexample: onboarding a student who shares college, board,
stream, address and an interest with an existing node persists no edge at
all, although a backfill over the resulting store would. -/
theorem onboard_no_edges_cex :
    (save_student c3Create c3State).2.edges = [] ∧
    materializeAll (save_student c3Create c3State).2.store [] ≠ [] :=
  ⟨rfl, by decide⟩

/-- C3 amended: onboarding allocates max existing id plus one, creates the
node (retrievable under the new id) and returns the id, but it leaves the
edge store exactly as it was: no incremental relationship materialization is
triggered on this path. -/
theorem save_student_no_materialization (c : StudentCreate) (st : ServiceState) :
    (save_student c st).1 = maxId st.store + 1 ∧
    (save_student c st).2.edges = st.edges ∧
    (save_student c st).2.store = st.store ++ [mkStudent (maxId st.store + 1) c] ∧
    lookup (save_student c st).2.store (maxId st.store + 1) =
      some (mkStudent (maxId st.store + 1) c) := by
  refine ⟨rfl, rfl, rfl, ?_⟩
  have hfresh : ∀ s ∈ st.store, s.id ≠ (mkStudent (maxId st.store + 1) c).id := by
    intro s hs
    have := id_le_maxId hs
    simp only [mkStudent]
    omega
  exact lookup_append_fresh hfresh

/-! ### Lemmas about the mirror record count -/

theorem countById_cons (r : Student) (rs : List Student) (i : Nat) :
    countById (r :: rs) i =
      if r.id = i then countById rs i + 1 else countById rs i := by
  by_cases h : r.id = i <;> simp [countById, List.filter_cons, h]

theorem countById_zero_not_mem {m : List Student} {i : Nat}
    (h : countById m i = 0) : ∀ r ∈ m, r.id ≠ i := by
  intro r hr hri
  induction m with
  | nil => cases hr
  | cons q m ih =>
    rw [countById_cons] at h
    by_cases hq : q.id = i
    · rw [if_pos hq] at h
      omega
    · rw [if_neg hq] at h
      rcases List.mem_cons.mp hr with h1 | h1
      · subst h1; exact hq hri
      · exact ih h h1

theorem replaceFirst_count_one {s : Student} : ∀ m : List Student,
    countById m s.id ≤ 1 → countById (replaceFirstById m s) s.id = 1 := by
  intro m
  induction m with
  | nil => intro _; simp [replaceFirstById, countById]
  | cons r rs ih =>
    intro h
    rw [countById_cons] at h
    unfold replaceFirstById
    by_cases hr : r.id = s.id
    · rw [if_pos hr, countById_cons, if_pos rfl]
      rw [if_pos hr] at h
      omega
    · rw [if_neg hr, countById_cons, if_neg hr]
      rw [if_neg hr] at h
      exact ih h

theorem replaceFirst_matching {s : Student} : ∀ m : List Student,
    countById m s.id ≤ 1 → ∀ r ∈ replaceFirstById m s, r.id = s.id → r = s := by
  intro m
  induction m with
  | nil =>
    intro _ r hr _
    simpa [replaceFirstById] using hr
  | cons q rs ih =>
    intro h r hr hri
    rw [countById_cons] at h
    unfold replaceFirstById at hr
    by_cases hq : q.id = s.id
    · rw [if_pos hq] at hr
      rw [if_pos hq] at h
      rcases List.mem_cons.mp hr with h1 | h1
      · exact h1
      · exact absurd hri (countById_zero_not_mem (by omega) r h1)
    · rw [if_neg hq] at hr
      rw [if_neg hq] at h
      rcases List.mem_cons.mp hr with h1 | h1
      · subst h1; exact absurd hri hq
      · exact ih h r h1 hri

/-- C10: when the mirror held at most one record under the allocated id,
save_student leaves it with exactly one record under the returned id, and
that record is exactly the submitted data under the new id. -/
theorem save_student_mirror_unique (c : StudentCreate) (st : ServiceState)
    (h : countById st.mirror (maxId st.store + 1) ≤ 1) :
    countById (save_student c st).2.mirror (save_student c st).1 = 1 ∧
    ∀ r ∈ (save_student c st).2.mirror, r.id = (save_student c st).1 →
      r = mkStudent (save_student c st).1 c := by
  constructor
  · exact replaceFirst_count_one st.mirror h
  · exact replaceFirst_matching st.mirror h

/-- Witness for C10 with an empty store and empty mirror: after onboarding,
the mirror holds exactly one record under the returned id 1. -/
theorem save_student_mirror_unique_witness :
    countById (save_student c3Create ⟨[], [], []⟩).2.mirror
      (save_student c3Create ⟨[], [], []⟩).1 = 1 :=
  (save_student_mirror_unique c3Create ⟨[], [], []⟩ (by decide)).1

/-! ### Membership lemmas for edge materialization -/

theorem mem_mergeEdge {es : List Edge} {s t : Nat} {k : RelKind} {e : Edge}
    (h : e ∈ mergeEdge es s t k) : e ∈ es ∨ e = ⟨s, t, k, []⟩ := by
  unfold mergeEdge at h
  by_cases hc : containsKey es s t k
  · rw [if_pos hc] at h
    exact Or.inl h
  · rw [if_neg hc] at h
    rcases List.mem_append.mp h with h1 | h1
    · exact Or.inl h1
    · exact Or.inr (by simpa using h1)

theorem mem_mergeInterestEdge {es : List Edge} {s t : Nat} {c : List String} {e : Edge}
    (h : e ∈ mergeInterestEdge es s t c) :
    (∃ e2 ∈ es, e.src = e2.src ∧ e.tgt = e2.tgt ∧ e.kind = e2.kind) ∨
      e = ⟨s, t, RelKind.SHARES_INTEREST, c⟩ := by
  unfold mergeInterestEdge at h
  by_cases hc : containsKey es s t RelKind.SHARES_INTEREST
  · rw [if_pos hc] at h
    rcases List.mem_map.mp h with ⟨e2, he2, heq⟩
    subst heq
    refine Or.inl ⟨e2, he2, ?_⟩
    unfold setCommon
    by_cases hk : isKey s t RelKind.SHARES_INTEREST e2 <;> simp [hk]
  · rw [if_neg hc] at h
    rcases List.mem_append.mp h with h1 | h1
    · exact Or.inl ⟨e, h1, rfl, rfl, rfl⟩
    · exact Or.inr (by simpa using h1)

theorem fold_mergeEdge_mem {k : RelKind} {e : Edge} :
    ∀ (ps : List (Student × Student)) (es : List Edge),
      e ∈ ps.foldl (fun es2 p => mergeEdge es2 p.1.id p.2.id k) es →
      e ∈ es ∨ ∃ p ∈ ps, e = ⟨p.1.id, p.2.id, k, []⟩ := by
  intro ps
  induction ps with
  | nil => intro es h; exact Or.inl h
  | cons p ps ih =>
    intro es h
    rw [List.foldl_cons] at h
    rcases ih _ h with h1 | ⟨q, hq, he⟩
    · rcases mem_mergeEdge h1 with h2 | h2
      · exact Or.inl h2
      · exact Or.inr ⟨p, List.mem_cons_self p ps, h2⟩
    · exact Or.inr ⟨q, List.mem_cons_of_mem p hq, he⟩

theorem fold_mergeInterestEdge_mem {cf : Student × Student → List String} {e : Edge} :
    ∀ (ps : List (Student × Student)) (es : List Edge),
      e ∈ ps.foldl (fun es2 p => mergeInterestEdge es2 p.1.id p.2.id (cf p)) es →
      (∃ e2 ∈ es, e.src = e2.src ∧ e.tgt = e2.tgt ∧ e.kind = e2.kind) ∨
        ∃ p ∈ ps, e.src = p.1.id ∧ e.tgt = p.2.id := by
  intro ps
  induction ps with
  | nil => intro es h; exact Or.inl ⟨e, h, rfl, rfl, rfl⟩
  | cons p ps ih =>
    intro es h
    rw [List.foldl_cons] at h
    rcases ih _ h with ⟨e2, he2, hs, ht, hk⟩ | ⟨q, hq, he⟩
    · rcases mem_mergeInterestEdge he2 with ⟨e3, he3, hs3, ht3, hk3⟩ | h2
      · exact Or.inl ⟨e3, he3, hs.trans hs3, ht.trans ht3, hk.trans hk3⟩
      · subst h2
        exact Or.inr ⟨p, List.mem_cons_self p ps, hs, ht⟩
    · exact Or.inr ⟨q, List.mem_cons_of_mem p hq, he⟩

theorem mem_scalarPairs {attr : Student → Option String} {store : List Student}
    {p : Student × Student} (h : p ∈ scalarPairs attr store) :
    p.1 ∈ store ∧ p.2 ∈ store ∧ p.1.id < p.2.id ∧
      (attr p.1).isSome ∧ attr p.1 = attr p.2 := by
  unfold scalarPairs at h
  rcases List.mem_flatMap.mp h with ⟨a, ha, hp⟩
  rcases List.mem_map.mp hp with ⟨b, hb, hpe⟩
  rcases List.mem_filter.mp hb with ⟨hbs, hcond⟩
  rcases Bool.and_eq_true_iff.mp hcond with ⟨hcond1, hcond3⟩
  rcases Bool.and_eq_true_iff.mp hcond1 with ⟨hlt, hsome⟩
  subst hpe
  exact ⟨ha, hbs, of_decide_eq_true hlt, hsome, eq_of_beq hcond3⟩

theorem mem_interestPairs {store : List Student} {p : Student × Student}
    (h : p ∈ interestPairs store) :
    p.1 ∈ store ∧ p.2 ∈ store ∧ p.1.id < p.2.id := by
  unfold interestPairs at h
  rcases List.mem_flatMap.mp h with ⟨a, ha, hp⟩
  rcases List.mem_map.mp hp with ⟨b, hb, hpe⟩
  rcases List.mem_filter.mp hb with ⟨hbs, hcond⟩
  rcases Bool.and_eq_true_iff.mp hcond with ⟨hlt, _⟩
  subst hpe
  exact ⟨ha, hbs, of_decide_eq_true hlt⟩

/-- C4 counterexample: for two students that both have no college set, the
recommendation for the first lists college as a matched field of the other. -/
theorem empty_college_recommend_cex :
    (recommend_people [] c4Store 1).2.map (fun r => r.matched_on) = [["college"]] := by
  decide

/-- C4 amended: the backfill creates SAME_COLLEGE edges only between pairs
whose colleges are non-null and equal, so two null colleges never yield an
edge; but the recommendation service compares literally, so two absent
colleges do produce a college matched field, and two empty-string colleges
do produce a SAME_COLLEGE edge. -/
theorem empty_college_match_behavior :
    (∀ (store : List Student) (es : List Edge) (e : Edge),
        e ∈ create_same_college store es → e ∈ es ∨
          ∃ a b : Student, a ∈ store ∧ b ∈ store ∧ a.id < b.id ∧
            a.college.isSome ∧ a.college = b.college ∧
            e = ⟨a.id, b.id, RelKind.SAME_COLLEGE, []⟩) ∧
    (∀ a b : Student, a.college = none → b.college = none →
        "college" ∈ matchedFields a b) ∧
    create_same_college [emptyCollegeA, emptyCollegeB] [] =
      [⟨1, 2, RelKind.SAME_COLLEGE, []⟩] := by
  refine ⟨fun store es e he => ?_, fun a b ha hb => ?_, by decide⟩
  · rcases fold_mergeEdge_mem _ es he with h1 | ⟨p, hp, hpe⟩
    · exact Or.inl h1
    · rcases mem_scalarPairs hp with ⟨h1, h2, h3, h4, h5⟩
      exact Or.inr ⟨p.1, p.2, h1, h2, h3, h4, h5, hpe⟩
  · have hcol : b.college = a.college := by rw [ha, hb]
    unfold matchedFields
    refine List.mem_append_left _ (List.mem_append_left _ (List.mem_append_right _ ?_))
    rw [if_pos hcol]
    exact List.mem_singleton.mpr rfl

/-- Witness for C4 amended on the concrete absent-college pair. -/
theorem empty_college_match_behavior_witness :
    "college" ∈ matchedFields c4Subject c4Cand :=
  empty_college_match_behavior.2.1 c4Subject c4Cand rfl rfl

theorem fold_merge_preserves_lt {k : RelKind} {ps : List (Student × Student)}
    {es : List Edge} (hps : ∀ p ∈ ps, p.1.id < p.2.id)
    (hes : ∀ e ∈ es, e.src < e.tgt) :
    ∀ e ∈ ps.foldl (fun es2 p => mergeEdge es2 p.1.id p.2.id k) es, e.src < e.tgt := by
  intro e he
  rcases fold_mergeEdge_mem ps es he with h | ⟨p, hp, hpe⟩
  · exact hes e h
  · subst hpe
    exact hps p hp

theorem create_same_college_lt {store : List Student} {es : List Edge}
    (hes : ∀ e ∈ es, e.src < e.tgt) :
    ∀ e ∈ create_same_college store es, e.src < e.tgt :=
  fold_merge_preserves_lt (fun _ hp => (mem_scalarPairs hp).2.2.1) hes

theorem create_same_board_lt {store : List Student} {es : List Edge}
    (hes : ∀ e ∈ es, e.src < e.tgt) :
    ∀ e ∈ create_same_board store es, e.src < e.tgt :=
  fold_merge_preserves_lt (fun _ hp => (mem_scalarPairs hp).2.2.1) hes

theorem create_same_stream_lt {store : List Student} {es : List Edge}
    (hes : ∀ e ∈ es, e.src < e.tgt) :
    ∀ e ∈ create_same_stream store es, e.src < e.tgt :=
  fold_merge_preserves_lt (fun _ hp => (mem_scalarPairs hp).2.2.1) hes

theorem create_nearby_lt {store : List Student} {es : List Edge}
    (hes : ∀ e ∈ es, e.src < e.tgt) :
    ∀ e ∈ create_nearby store es, e.src < e.tgt :=
  fold_merge_preserves_lt (fun _ hp => (mem_scalarPairs hp).2.2.1) hes

theorem create_shares_interest_lt {store : List Student} {es : List Edge}
    (hes : ∀ e ∈ es, e.src < e.tgt) :
    ∀ e ∈ create_shares_interest store es, e.src < e.tgt := by
  intro e he
  rcases fold_mergeInterestEdge_mem _ es he with ⟨e2, he2, hs, ht, _⟩ | ⟨p, hp, hs, ht⟩
  · rw [hs, ht]
    exact hes e2 he2
  · rw [hs, ht]
    exact (mem_interestPairs hp).2.2

theorem stage_lt {store : List Student} {f : List Student → List Edge → List Edge}
    (hf : ∀ es : List Edge, (∀ e ∈ es, e.src < e.tgt) → ∀ e ∈ f store es, e.src < e.tgt)
    (b : Bool) {es : List Edge} (h : ∀ e ∈ es, e.src < e.tgt) :
    ∀ e ∈ (if b then f store es else es), e.src < e.tgt := by
  by_cases hb : b
  · rw [if_pos hb]
    exact hf es h
  · rw [if_neg hb]
    exact h

/-- C6: whatever flags are enabled and whatever the store order, every edge
produced by the backfill over an edge store already satisfying the canonical
ordering has its source at the smaller id and its target at the larger id. -/
theorem run_all_canonical_order (store : List Student) (cb cc cs ca ci : Bool)
    (es : List Edge) (h : ∀ e ∈ es, e.src < e.tgt) :
    ∀ e ∈ run_all store cb cc cs ca ci es, e.src < e.tgt := by
  unfold run_all
  exact stage_lt (fun es2 h2 => create_shares_interest_lt h2) ci
    (stage_lt (fun es2 h2 => create_nearby_lt h2) ca
      (stage_lt (fun es2 h2 => create_same_stream_lt h2) cs
        (stage_lt (fun es2 h2 => create_same_board_lt h2) cb
          (stage_lt (fun es2 h2 => create_same_college_lt h2) cc h))))

/-- Witness for C6: every edge of a concrete full backfill from an empty
edge store has source id below target id. -/
theorem run_all_canonical_order_witness :
    (run_all c2Store true true true true true []).all
      (fun e => decide (e.src < e.tgt)) = true :=
  List.all_eq_true.mpr (fun e he =>
    decide_eq_true
      (run_all_canonical_order c2Store true true true true true []
        (by simp) e he))

/-! ### Idempotence machinery for the backfill -/

theorem isKey_setCommon (s t s2 t2 : Nat) (k : RelKind) (c : List String) (e : Edge) :
    isKey s t k (setCommon c s2 t2 e) = isKey s t k e := by
  unfold setCommon
  by_cases hk : isKey s2 t2 RelKind.SHARES_INTEREST e
  · rw [if_pos hk]
    rfl
  · rw [if_neg hk]

theorem containsKey_map_setCommon (es : List Edge) (c : List String)
    (s2 t2 s t : Nat) (k : RelKind) :
    containsKey (es.map (setCommon c s2 t2)) s t k = containsKey es s t k := by
  unfold containsKey
  rw [List.any_map]
  rw [show (isKey s t k ∘ setCommon c s2 t2) = isKey s t k from
    funext (fun e => isKey_setCommon s t s2 t2 k c e)]

theorem containsKey_append_left {es : List Edge} {s t : Nat} {k : RelKind}
    (l : List Edge) (h : containsKey es s t k = true) :
    containsKey (es ++ l) s t k = true := by
  unfold containsKey at h ⊢
  rw [List.any_append, h]
  rfl

theorem containsKey_mergeEdge_mono {es : List Edge} {s t : Nat} {k : RelKind}
    (s2 t2 : Nat) (k2 : RelKind) (h : containsKey es s t k = true) :
    containsKey (mergeEdge es s2 t2 k2) s t k = true := by
  unfold mergeEdge
  by_cases hc : containsKey es s2 t2 k2
  · rw [if_pos hc]
    exact h
  · rw [if_neg hc]
    exact containsKey_append_left _ h

theorem containsKey_mergeInterestEdge_mono {es : List Edge} {s t : Nat} {k : RelKind}
    (s2 t2 : Nat) (c : List String) (h : containsKey es s t k = true) :
    containsKey (mergeInterestEdge es s2 t2 c) s t k = true := by
  unfold mergeInterestEdge
  by_cases hc : containsKey es s2 t2 RelKind.SHARES_INTEREST
  · rw [if_pos hc, containsKey_map_setCommon]
    exact h
  · rw [if_neg hc]
    exact containsKey_append_left _ h

theorem mergeEdge_achieves (es : List Edge) (s t : Nat) (k : RelKind) :
    containsKey (mergeEdge es s t k) s t k = true := by
  unfold mergeEdge
  by_cases hc : containsKey es s t k
  · rw [if_pos hc]
    exact hc
  · rw [if_neg hc]
    unfold containsKey
    rw [List.any_append]
    simp [isKey]

theorem mergeInterestEdge_achieves (es : List Edge) (s t : Nat) (c : List String) :
    containsKey (mergeInterestEdge es s t c) s t RelKind.SHARES_INTEREST = true := by
  unfold mergeInterestEdge
  by_cases hc : containsKey es s t RelKind.SHARES_INTEREST
  · rw [if_pos hc, containsKey_map_setCommon]
    exact hc
  · rw [if_neg hc]
    unfold containsKey
    rw [List.any_append]
    simp [isKey]

theorem fold_mergeEdge_mono {k : RelKind} {s t : Nat} {k2 : RelKind} :
    ∀ (ps : List (Student × Student)) (es : List Edge),
      containsKey es s t k2 = true →
      containsKey (ps.foldl (fun es2 q => mergeEdge es2 q.1.id q.2.id k) es) s t k2 = true := by
  intro ps
  induction ps with
  | nil => intro es h; exact h
  | cons q ps ih =>
    intro es h
    rw [List.foldl_cons]
    exact ih _ (containsKey_mergeEdge_mono _ _ _ h)

theorem fold_mergeInterestEdge_mono {cf : Student × Student → List String}
    {s t : Nat} {k2 : RelKind} :
    ∀ (ps : List (Student × Student)) (es : List Edge),
      containsKey es s t k2 = true →
      containsKey
        (ps.foldl (fun es2 q => mergeInterestEdge es2 q.1.id q.2.id (cf q)) es) s t k2 = true := by
  intro ps
  induction ps with
  | nil => intro es h; exact h
  | cons q ps ih =>
    intro es h
    rw [List.foldl_cons]
    exact ih _ (containsKey_mergeInterestEdge_mono _ _ _ h)

theorem fold_mergeEdge_achieves {k : RelKind} :
    ∀ (ps : List (Student × Student)) (es : List Edge), ∀ p ∈ ps,
      containsKey (ps.foldl (fun es2 q => mergeEdge es2 q.1.id q.2.id k) es)
        p.1.id p.2.id k = true := by
  intro ps
  induction ps with
  | nil => intro es p hp; cases hp
  | cons q ps ih =>
    intro es p hp
    rw [List.foldl_cons]
    rcases List.mem_cons.mp hp with h | h
    · subst h
      exact fold_mergeEdge_mono ps _ (mergeEdge_achieves es p.1.id p.2.id k)
    · exact ih _ p h

theorem fold_mergeInterestEdge_achieves {cf : Student × Student → List String} :
    ∀ (ps : List (Student × Student)) (es : List Edge), ∀ p ∈ ps,
      containsKey (ps.foldl (fun es2 q => mergeInterestEdge es2 q.1.id q.2.id (cf q)) es)
        p.1.id p.2.id RelKind.SHARES_INTEREST = true := by
  intro ps
  induction ps with
  | nil => intro es p hp; cases hp
  | cons q ps ih =>
    intro es p hp
    rw [List.foldl_cons]
    rcases List.mem_cons.mp hp with h | h
    · subst h
      exact fold_mergeInterestEdge_mono ps _
        (mergeInterestEdge_achieves es p.1.id p.2.id (cf p))
    · exact ih _ p h

theorem mergeEdge_noop {es : List Edge} {s t : Nat} {k : RelKind}
    (h : containsKey es s t k = true) : mergeEdge es s t k = es := by
  unfold mergeEdge
  rw [if_pos h]

theorem fold_mergeEdge_noop {k : RelKind} :
    ∀ (ps : List (Student × Student)) (es : List Edge),
      (∀ p ∈ ps, containsKey es p.1.id p.2.id k = true) →
      ps.foldl (fun es2 q => mergeEdge es2 q.1.id q.2.id k) es = es := by
  intro ps
  induction ps with
  | nil => intro es _; rfl
  | cons q ps ih =>
    intro es h
    rw [List.foldl_cons, mergeEdge_noop (h q (List.mem_cons_self q ps))]
    exact ih es (fun p hp => h p (List.mem_cons_of_mem q hp))

/-- Every stored SHARES_INTEREST edge on the given pair carries the given
common list. -/
def commonOk (s t : Nat) (c : List String) (es : List Edge) : Prop :=
  ∀ e ∈ es, isKey s t RelKind.SHARES_INTEREST e = true → e.common = c

theorem isKey_fields {s t : Nat} {k : RelKind} {e : Edge}
    (h : isKey s t k e = true) : e.src = s ∧ e.tgt = t ∧ e.kind = k := by
  unfold isKey at h
  rcases Bool.and_eq_true_iff.mp h with ⟨h1, h3⟩
  rcases Bool.and_eq_true_iff.mp h1 with ⟨hs, ht⟩
  exact ⟨eq_of_beq hs, eq_of_beq ht, eq_of_beq h3⟩

theorem commonOk_mergeInterestEdge_self (es : List Edge) (s t : Nat) (c : List String) :
    commonOk s t c (mergeInterestEdge es s t c) := by
  unfold mergeInterestEdge
  by_cases hc : containsKey es s t RelKind.SHARES_INTEREST
  · rw [if_pos hc]
    intro e he hk
    rcases List.mem_map.mp he with ⟨e2, he2, heq⟩
    subst heq
    rw [isKey_setCommon] at hk
    unfold setCommon
    rw [if_pos hk]
  · rw [if_neg hc]
    intro e he hk
    rcases List.mem_append.mp he with h1 | h1
    · exact absurd (List.any_eq_true.mpr ⟨e, h1, hk⟩) hc
    · have he2 : e = ⟨s, t, RelKind.SHARES_INTEREST, c⟩ := by simpa using h1
      subst he2
      rfl

theorem commonOk_mergeInterestEdge_other {s t : Nat} {c : List String}
    {s2 t2 : Nat} {c2 : List String} {es : List Edge}
    (h : commonOk s t c es)
    (hcomp : s2 = s → t2 = t → c2 = c) :
    commonOk s t c (mergeInterestEdge es s2 t2 c2) := by
  unfold mergeInterestEdge
  by_cases hc : containsKey es s2 t2 RelKind.SHARES_INTEREST
  · rw [if_pos hc]
    intro e he hk
    rcases List.mem_map.mp he with ⟨e2, he2, heq⟩
    subst heq
    rw [isKey_setCommon] at hk
    unfold setCommon
    by_cases hk2 : isKey s2 t2 RelKind.SHARES_INTEREST e2
    · rw [if_pos hk2]
      obtain ⟨hsa, hta, _⟩ := isKey_fields hk
      obtain ⟨hsb, htb, _⟩ := isKey_fields hk2
      exact hcomp (hsb.symm.trans hsa) (htb.symm.trans hta)
    · rw [if_neg hk2]
      exact h e2 he2 hk
  · rw [if_neg hc]
    intro e he hk
    rcases List.mem_append.mp he with h1 | h1
    · exact h e h1 hk
    · have he2 : e = ⟨s2, t2, RelKind.SHARES_INTEREST, c2⟩ := by simpa using h1
      subst he2
      obtain ⟨hsa, hta, _⟩ := isKey_fields hk
      exact hcomp hsa hta

theorem mergeInterestEdge_id {es : List Edge} {s t : Nat} {c : List String}
    (hc : containsKey es s t RelKind.SHARES_INTEREST = true)
    (hok : commonOk s t c es) :
    mergeInterestEdge es s t c = es := by
  unfold mergeInterestEdge
  rw [if_pos hc]
  have hall : ∀ e ∈ es, setCommon c s t e = e := by
    intro e he
    unfold setCommon
    by_cases hk : isKey s t RelKind.SHARES_INTEREST e
    · rw [if_pos hk, ← hok e he hk]
    · rw [if_neg hk]
  rw [List.map_congr_left hall]
  exact List.map_id' es

theorem fold_interest_preserves_commonOk {cf : Student × Student → List String}
    {s t : Nat} {c : List String} :
    ∀ (ps : List (Student × Student)) (es : List Edge),
      commonOk s t c es →
      (∀ r ∈ ps, r.1.id = s → r.2.id = t → cf r = c) →
      commonOk s t c
        (ps.foldl (fun es2 q => mergeInterestEdge es2 q.1.id q.2.id (cf q)) es) := by
  intro ps
  induction ps with
  | nil => intro es h _; exact h
  | cons r ps ih =>
    intro es h hr
    rw [List.foldl_cons]
    exact ih _
      (commonOk_mergeInterestEdge_other h (hr r (List.mem_cons_self r ps)))
      (fun r2 hr2 => hr r2 (List.mem_cons_of_mem r hr2))

theorem fold_interest_achieves_commonOk {cf : Student × Student → List String} :
    ∀ (ps : List (Student × Student)) (es : List Edge),
      (∀ p ∈ ps, ∀ q ∈ ps, p.1.id = q.1.id → p.2.id = q.2.id → cf p = cf q) →
      ∀ p ∈ ps, commonOk p.1.id p.2.id (cf p)
        (ps.foldl (fun es2 q => mergeInterestEdge es2 q.1.id q.2.id (cf q)) es) := by
  intro ps
  induction ps with
  | nil => intro es _ p hp; cases hp
  | cons q ps ih =>
    intro es hcoh p hp
    rw [List.foldl_cons]
    rcases List.mem_cons.mp hp with h | h
    · subst h
      refine fold_interest_preserves_commonOk ps _
        (commonOk_mergeInterestEdge_self es p.1.id p.2.id (cf p)) ?_
      intro r hr hs ht
      exact hcoh r (List.mem_cons_of_mem p hr) p (List.mem_cons_self p ps) hs ht
    · exact ih _
        (fun a ha b hb => hcoh a (List.mem_cons_of_mem q ha) b (List.mem_cons_of_mem q hb))
        p h

theorem fold_interest_noop {cf : Student × Student → List String} :
    ∀ (ps : List (Student × Student)) (es : List Edge),
      (∀ p ∈ ps, containsKey es p.1.id p.2.id RelKind.SHARES_INTEREST = true ∧
        commonOk p.1.id p.2.id (cf p) es) →
      ps.foldl (fun es2 q => mergeInterestEdge es2 q.1.id q.2.id (cf q)) es = es := by
  intro ps
  induction ps with
  | nil => intro es _; rfl
  | cons q ps ih =>
    intro es h
    rw [List.foldl_cons,
      mergeInterestEdge_id (h q (List.mem_cons_self q ps)).1 (h q (List.mem_cons_self q ps)).2]
    exact ih es (fun p hp => h p (List.mem_cons_of_mem q hp))

theorem interest_cf_coherent {store : List Student}
    (h : (store.map Student.id).Nodup) :
    ∀ p ∈ interestPairs store, ∀ q ∈ interestPairs store,
      p.1.id = q.1.id → p.2.id = q.2.id →
      commonInterests p.1 p.2 = commonInterests q.1 q.2 := by
  intro p hp q hq h1 h2
  obtain ⟨hp1, hp2, _⟩ := mem_interestPairs hp
  obtain ⟨hq1, hq2, _⟩ := mem_interestPairs hq
  have e1 : p.1 = q.1 := List.inj_on_of_nodup_map h hp1 hq1 h1
  have e2 : p.2 = q.2 := List.inj_on_of_nodup_map h hp2 hq2 h2
  rw [e1, e2]

theorem containsKey_create_same_college_mono {store : List Student} {es : List Edge}
    {s t : Nat} {k : RelKind} (h : containsKey es s t k = true) :
    containsKey (create_same_college store es) s t k = true :=
  fold_mergeEdge_mono _ es h

theorem containsKey_create_same_board_mono {store : List Student} {es : List Edge}
    {s t : Nat} {k : RelKind} (h : containsKey es s t k = true) :
    containsKey (create_same_board store es) s t k = true :=
  fold_mergeEdge_mono _ es h

theorem containsKey_create_same_stream_mono {store : List Student} {es : List Edge}
    {s t : Nat} {k : RelKind} (h : containsKey es s t k = true) :
    containsKey (create_same_stream store es) s t k = true :=
  fold_mergeEdge_mono _ es h

theorem containsKey_create_nearby_mono {store : List Student} {es : List Edge}
    {s t : Nat} {k : RelKind} (h : containsKey es s t k = true) :
    containsKey (create_nearby store es) s t k = true :=
  fold_mergeEdge_mono _ es h

theorem containsKey_create_shares_interest_mono {store : List Student} {es : List Edge}
    {s t : Nat} {k : RelKind} (h : containsKey es s t k = true) :
    containsKey (create_shares_interest store es) s t k = true :=
  fold_mergeInterestEdge_mono _ es h

theorem create_same_college_achieves (store : List Student) (es : List Edge) :
    ∀ p ∈ scalarPairs Student.college store,
      containsKey (create_same_college store es) p.1.id p.2.id RelKind.SAME_COLLEGE = true :=
  fold_mergeEdge_achieves _ es

theorem create_same_board_achieves (store : List Student) (es : List Edge) :
    ∀ p ∈ scalarPairs Student.board store,
      containsKey (create_same_board store es) p.1.id p.2.id RelKind.SAME_BOARD = true :=
  fold_mergeEdge_achieves _ es

theorem create_same_stream_achieves (store : List Student) (es : List Edge) :
    ∀ p ∈ scalarPairs Student.stream store,
      containsKey (create_same_stream store es) p.1.id p.2.id RelKind.SAME_STREAM = true :=
  fold_mergeEdge_achieves _ es

theorem create_nearby_achieves (store : List Student) (es : List Edge) :
    ∀ p ∈ scalarPairs Student.address store,
      containsKey (create_nearby store es) p.1.id p.2.id RelKind.NEARBY = true :=
  fold_mergeEdge_achieves _ es

theorem create_shares_interest_achieves (store : List Student) (es : List Edge) :
    ∀ p ∈ interestPairs store,
      containsKey (create_shares_interest store es) p.1.id p.2.id
        RelKind.SHARES_INTEREST = true :=
  fold_mergeInterestEdge_achieves _ es

theorem create_shares_interest_achieves_commonOk (store : List Student) (es : List Edge)
    (hcoh : ∀ p ∈ interestPairs store, ∀ q ∈ interestPairs store,
      p.1.id = q.1.id → p.2.id = q.2.id →
      commonInterests p.1 p.2 = commonInterests q.1 q.2) :
    ∀ p ∈ interestPairs store,
      commonOk p.1.id p.2.id (commonInterests p.1 p.2) (create_shares_interest store es) :=
  fold_interest_achieves_commonOk _ es hcoh

theorem create_same_college_noop {store : List Student} {es : List Edge}
    (h : ∀ p ∈ scalarPairs Student.college store,
      containsKey es p.1.id p.2.id RelKind.SAME_COLLEGE = true) :
    create_same_college store es = es :=
  fold_mergeEdge_noop _ es h

theorem create_same_board_noop {store : List Student} {es : List Edge}
    (h : ∀ p ∈ scalarPairs Student.board store,
      containsKey es p.1.id p.2.id RelKind.SAME_BOARD = true) :
    create_same_board store es = es :=
  fold_mergeEdge_noop _ es h

theorem create_same_stream_noop {store : List Student} {es : List Edge}
    (h : ∀ p ∈ scalarPairs Student.stream store,
      containsKey es p.1.id p.2.id RelKind.SAME_STREAM = true) :
    create_same_stream store es = es :=
  fold_mergeEdge_noop _ es h

theorem create_nearby_noop {store : List Student} {es : List Edge}
    (h : ∀ p ∈ scalarPairs Student.address store,
      containsKey es p.1.id p.2.id RelKind.NEARBY = true) :
    create_nearby store es = es :=
  fold_mergeEdge_noop _ es h

theorem create_shares_interest_noop {store : List Student} {es : List Edge}
    (h : ∀ p ∈ interestPairs store,
      containsKey es p.1.id p.2.id RelKind.SHARES_INTEREST = true ∧
        commonOk p.1.id p.2.id (commonInterests p.1 p.2) es) :
    create_shares_interest store es = es :=
  fold_interest_noop _ es h

/-- C7: when the node set carries pairwise distinct ids, a second full
backfill over the unchanged node set returns the edge store of the first
backfill unchanged: every MERGE finds its pattern and every SET rewrites the
common list it already wrote. -/
theorem materializeAll_idempotent (store : List Student) (es : List Edge)
    (hids : (store.map Student.id).Nodup) :
    materializeAll store (materializeAll store es) = materializeAll store es := by
  have hcoh := interest_cf_coherent hids
  have hA : materializeAll store es =
      create_shares_interest store (create_nearby store (create_same_stream store
        (create_same_board store (create_same_college store es)))) := rfl
  have hcolR : ∀ p ∈ scalarPairs Student.college store,
      containsKey (materializeAll store es) p.1.id p.2.id RelKind.SAME_COLLEGE = true := by
    intro p hp
    rw [hA]
    exact containsKey_create_shares_interest_mono (containsKey_create_nearby_mono
      (containsKey_create_same_stream_mono (containsKey_create_same_board_mono
        (create_same_college_achieves store es p hp))))
  have hboardR : ∀ p ∈ scalarPairs Student.board store,
      containsKey (materializeAll store es) p.1.id p.2.id RelKind.SAME_BOARD = true := by
    intro p hp
    rw [hA]
    exact containsKey_create_shares_interest_mono (containsKey_create_nearby_mono
      (containsKey_create_same_stream_mono (create_same_board_achieves store _ p hp)))
  have hstreamR : ∀ p ∈ scalarPairs Student.stream store,
      containsKey (materializeAll store es) p.1.id p.2.id RelKind.SAME_STREAM = true := by
    intro p hp
    rw [hA]
    exact containsKey_create_shares_interest_mono (containsKey_create_nearby_mono
      (create_same_stream_achieves store _ p hp))
  have hnearR : ∀ p ∈ scalarPairs Student.address store,
      containsKey (materializeAll store es) p.1.id p.2.id RelKind.NEARBY = true := by
    intro p hp
    rw [hA]
    exact containsKey_create_shares_interest_mono (create_nearby_achieves store _ p hp)
  have hintR : ∀ p ∈ interestPairs store,
      containsKey (materializeAll store es) p.1.id p.2.id RelKind.SHARES_INTEREST = true := by
    intro p hp
    rw [hA]
    exact create_shares_interest_achieves store _ p hp
  have hokR : ∀ p ∈ interestPairs store,
      commonOk p.1.id p.2.id (commonInterests p.1 p.2) (materializeAll store es) := by
    intro p hp
    rw [hA]
    exact create_shares_interest_achieves_commonOk store _ hcoh p hp
  have hB : materializeAll store (materializeAll store es) =
      create_shares_interest store (create_nearby store (create_same_stream store
        (create_same_board store (create_same_college store (materializeAll store es))))) :=
    rfl
  rw [hB, create_same_college_noop hcolR, create_same_board_noop hboardR,
    create_same_stream_noop hstreamR, create_nearby_noop hnearR]
  exact create_shares_interest_noop (fun p hp => ⟨hintR p hp, hokR p hp⟩)

/-- Witness for C7: a concrete double backfill from the empty edge store
over the distinct-id ranking store. -/
theorem materializeAll_idempotent_witness :
    materializeAll c2Store (materializeAll c2Store []) = materializeAll c2Store [] :=
  materializeAll_idempotent c2Store [] (by decide)
